import Mathlib

/-!
Shallow embedding of the clone-genealogy matching and classification engine of
the Mining-Challenge-MSR-2026 repository.

Sources embedded here:
- src/omniccg/CloneFragment.py (fragment data and similarity comparison);
- src/omniccg/CloneClass.py (clone groups and the lineage-continuity comparison);
- src/clone_genealogy/CloneVersion.py (one snapshot of a lineage);
- src/clone_genealogy/core.py (GetPattern, RunGenealogyAnalysis,
  build_no_clones_message, the final dispatch of get_clone_genealogy);
- src/clone_genealogy/clone_density.py (count_cloned_lines_of_code).

The repository imports clone_genealogy.CloneFragment, clone_genealogy.CloneClass
and clone_genealogy.Lineage, which are not under src/; the omniccg copies of the
first two are in src/ and are embedded here, and Lineage is modelled from the
spec where noted. Fragment fingerprinting (omniccg/hash_operations.py) is also
not under src/ and is modelled from the spec where noted.
-/

/-- Number of set bits among the low `width` bits of a natural number (used by
the modelled fingerprint similarity below). -/
def popCount (width : Nat) (n : Nat) : Nat :=
  match width with
  | 0 => 0
  | w + 1 => n % 2 + popCount w (n / 2)

/-- Modelled from the spec: omniccg/hash_operations.py (generate_simhash and
match_hashes) is not under src/. Spec section 4.1 says fingerprints are 64-bit
locality-sensitive values and near-identical code yields fingerprints within a
small Hamming distance; a pair matches under a similarity threshold t when the
fingerprints differ in at most (1 - t) * 64 bits. -/
def hamming64 (h1 h2 : Nat) : Nat := popCount 64 ((h1 ^^^ h2) % 2 ^ 64)

/-- Modelled from the spec: match_hashes of omniccg/hash_operations.py is not
under src/; maxDist is the bit budget corresponding to the callers threshold. -/
def match_hashes (h1 h2 : Nat) (maxDist : Nat) : Bool := hamming64 h1 h2 ≤ maxDist

/-- Bit budget for the 0.90 similarity threshold used by CloneFragment.matches:
(1 - 0.90) * 64 = 6.4, so at most 6 differing bits. -/
def simThreshold90 : Nat := 6

/-- A clone fragment (omniccg/CloneFragment.py): file path, start line, end line
and the content fingerprint. The fingerprint is carried as data because its
computation (generate_simhash over the cleaned file contents) is file input and
is outside this embedding. -/
structure CloneFragment where
  file : String
  ls : Int
  le : Int
  hash : Nat
deriving Repr, DecidableEq

/-- CloneFragment.matches (omniccg/CloneFragment.py lines 19-24): exact textual
reference first (same file, same line range), then fingerprint similarity at
threshold 0.90. -/
def CloneFragment.matches (self other : CloneFragment) : Bool :=
  (self.file == other.file && self.ls == other.ls && self.le == other.le)
    || match_hashes self.hash other.hash simThreshold90

/-- CloneFragment.countLOC (omniccg/CloneFragment.py lines 36-37). -/
def CloneFragment.countLOC (f : CloneFragment) : Int := f.le - f.ls

/-- A clone class (omniccg/CloneClass.py): one detector clone group. -/
structure CloneClass where
  fragments : List CloneFragment := []
deriving Repr, DecidableEq

/-- CloneClass.contains (omniccg/CloneClass.py lines 8-12). -/
def CloneClass.contains (self : CloneClass) (fragment : CloneFragment) : Bool :=
  self.fragments.any fun f => f.matches fragment

/-- CloneClass.matches (omniccg/CloneClass.py lines 14-19): n counts the
fragments of cc that self contains; the result is n == len(cc.fragments) or
n == len(self.fragments). -/
def CloneClass.matches (self cc : CloneClass) : Bool :=
  let n := cc.fragments.countP fun fragment => self.contains fragment
  n == cc.fragments.length || n == self.fragments.length

/-- CloneClass.countLOC (omniccg/CloneClass.py lines 31-32). -/
def CloneClass.countLOC (self : CloneClass) : Int :=
  (self.fragments.map CloneFragment.countLOC).sum

/-- One snapshot of a lineage (clone_genealogy/CloneVersion.py lines 4-15).
Field defaults follow the Python parameter defaults; cc, h and n default to
Python None and are given empty and zero placeholders here, which the engine
never relies on because it always passes them. -/
structure CloneVersion where
  cloneclass : CloneClass := {}
  hash : String := ""
  nr : Nat := 0
  author_pr : String := "None"
  evolution_pattern : String := "None"
  change_pattern : String := "None"
  n_evo : Int := 0
  n_change : Int := 0
  clones_loc : Int := 0
  removed_fragments : List CloneFragment := []
deriving Repr, DecidableEq

/-- A Python runtime value, used to model the positional-argument calling
convention of CloneVersion.__init__ faithfully at its call sites in core.py. -/
inductive PyVal where
  | vnone
  | vstr (s : String)
  | vint (z : Int)
  | vclass (c : CloneClass)
  | vfrags (fs : List CloneFragment)
deriving Repr, DecidableEq

/-- Positional-argument model of CloneVersion.__init__
(clone_genealogy/CloneVersion.py lines 5-15): nine parameters
(cc, h, n, author_pr, evo, chan, n_evo, n_change, clones_loc) with defaults,
producing the attribute map the constructor assigns; a call with more than nine
positional arguments fails (a TypeError in Python), hence the Option result. -/
def CloneVersionInit (args : List PyVal) : Option (List (String × PyVal)) :=
  if args.length > 9 then none
  else some [
    ("cloneclass", args.getD 0 .vnone),
    ("hash", args.getD 1 .vnone),
    ("nr", args.getD 2 .vnone),
    ("author_pr", args.getD 3 (.vstr "None")),
    ("evolution_pattern", args.getD 4 (.vstr "None")),
    ("change_pattern", args.getD 5 (.vstr "None")),
    ("n_evo", args.getD 6 (.vint 0)),
    ("n_change", args.getD 7 (.vint 0)),
    ("clones_loc", args.getD 8 (.vint 0)),
    ("removed_fragments", .vfrags [])]

/-- Result record of GetPattern (core.py line 109 returns this tuple). -/
structure Pattern where
  evolution : String
  change : String
  n_evo : Int
  n_change : Int
  clones_loc : Int
deriving Repr, DecidableEq

/-- The nested matches_count of GetPattern (core.py lines 73-80): for each
fragment of b, scan a and count the first fragment with an equal fingerprint,
then break; so each fragment of b contributes one when some fragment of a has
an equal fingerprint. -/
def matches_count (a : List CloneFragment) : List CloneFragment → Nat
  | [] => 0
  | f2 :: rest =>
    (if a.any fun f1 => f1.hash == f2.hash then 1 else 0) + matches_count a rest

/-- GetPattern (core.py lines 61-109). Each field mirrors the value the
corresponding Python local holds at the return, branch by branch. -/
def GetPattern (v1 v2 : CloneVersion) : Pattern :=
  let f1 := v1.cloneclass.fragments
  let f2 := v2.cloneclass.fragments
  let evolution : String :=
    if f1.length = f2.length then "Same"
    else if f1.length > f2.length then "Subtract"
    else "Add"
  let n_evo : Int :=
    if f1.length = f2.length then 0
    else if f1.length > f2.length then (f1.length : Int) - (f2.length : Int)
    else (f2.length : Int) - (f1.length : Int)
  let nr_of_matches := matches_count f1 f2
  let change : String :=
    if evolution = "Same" ∨ evolution = "Subtract" then
      if nr_of_matches = f2.length then "Same"
      else if nr_of_matches = 0 then "Consistent"
      else "Inconsistent"
    else if evolution = "Add" then
      if nr_of_matches = f1.length then "Same"
      else if nr_of_matches = 0 then "Consistent"
      else "Inconsistent"
    else "None"
  let n_change : Int :=
    if evolution = "Same" ∨ evolution = "Subtract" then
      if nr_of_matches = f2.length then 0
      else if nr_of_matches = 0 then (f2.length : Int)
      else (f2.length : Int) - (nr_of_matches : Int)
    else if evolution = "Add" then
      if nr_of_matches = f1.length then 0
      else if nr_of_matches = 0 then (f2.length : Int)
      else (f2.length : Int) - (nr_of_matches : Int)
    else 0
  let v2_clones_loc := (f2.map fun frag => frag.le - frag.ls).sum
  let v1_clones_loc := (f1.map fun frag => frag.le - frag.ls).sum
  { evolution := evolution, change := change, n_evo := n_evo,
    n_change := n_change, clones_loc := v2_clones_loc - v1_clones_loc }

/-- A lineage: the ordered history of Clone Versions of one logical clone. -/
structure Lineage where
  versions : List CloneVersion := []
deriving Repr, DecidableEq

/-- Latest Clone Version of a lineage (versions[-1] in core.py); lineages built
by the engine are never empty, so the default is never reached there. -/
def Lineage.lastVersion (l : Lineage) : CloneVersion := l.versions.getLastD {}

/-- Revision index of the latest Clone Version (versions[-1].nr in core.py). -/
def Lineage.lastNr (l : Lineage) : Nat := l.lastVersion.nr

/-- Modelled from the spec: clone_genealogy/Lineage.py is not under src/. Spec
section 4.2 says a Lineage matches a Clone Class by comparing the fragments of
the class against the fragments of the latest Clone Version of the Lineage; the
comparison itself is CloneClass.matches, embedded above from source. -/
def Lineage.matches (l : Lineage) (cc : CloneClass) : Bool :=
  match l.versions.getLast? with
  | some v => v.cloneclass.matches cc
  | none => false

/-- Birth of a new lineage (core.py lines 250-254 and 268-272): a single Clone
Version whose classification fields keep the constructor defaults.
Call-site note: core.py line 251 and 269 pass number_pr into the author_pr
parameter slot and author_pr into the evo slot (see CloneVersionInit for the
faithful positional model of that slip); here the fields are bound according to
the parameter names of CloneVersion.__init__, which is the evident intent. -/
def birthLineage (pcc : CloneClass) (hash_ : String) (commitNr : Nat)
    (author_pr : String) : Lineage :=
  { versions := [{ cloneclass := pcc, hash := hash_, nr := commitNr,
                   author_pr := author_pr }] }

/-- Append of a classified Clone Version (core.py lines 264-265).
Call-site note: line 265 passes ten positional arguments to the nine-parameter
CloneVersion.__init__ (see CloneVersionInit); here the fields are bound
according to the parameter names, which is the evident intent, with the
GetPattern results in the classification slots. -/
def Lineage.appendVersion (l : Lineage) (pcc : CloneClass) (hash_ : String)
    (commitNr : Nat) (author_pr : String) : Lineage :=
  let p := GetPattern l.lastVersion
      { cloneclass := pcc, hash := hash_, nr := commitNr, author_pr := author_pr }
  let v : CloneVersion :=
    { cloneclass := pcc, hash := hash_, nr := commitNr, author_pr := author_pr,
      evolution_pattern := p.evolution, change_pattern := p.change,
      n_evo := p.n_evo, n_change := p.n_change, clones_loc := p.clones_loc }
  { versions := l.versions ++ [v] }

/-- The inner lineage scan of RunGenealogyAnalysis (core.py lines 258-267):
walk the lineages in order; at the first lineage that matches, skip it when its
latest version already carries this commit number (continue), otherwise append
the classified version and stop. Returns none when the scan falls through. -/
def scanLineages (pcc : CloneClass) (hash_ : String) (commitNr : Nat)
    (author_pr : String) : List Lineage → Option (List Lineage)
  | [] => none
  | l :: rest =>
    if l.matches pcc then
      if l.lastNr = commitNr then
        (scanLineages pcc hash_ commitNr author_pr rest).map fun s => l :: s
      else some (l.appendVersion pcc hash_ commitNr author_pr :: rest)
    else
      (scanLineages pcc hash_ commitNr author_pr rest).map fun s => l :: s

/-- Assignment of one Clone Class against a non-empty state (core.py lines
256-272): extend the first eligible lineage, else append a birth lineage. -/
def assignCloneClass (state : List Lineage) (pcc : CloneClass) (hash_ : String)
    (commitNr : Nat) (author_pr : String) : List Lineage :=
  match scanLineages pcc hash_ commitNr author_pr state with
  | some s => s
  | none => state ++ [birthLineage pcc hash_ commitNr author_pr]

/-- RunGenealogyAnalysis (core.py lines 243-272) restricted to its state
transformation: an empty state births one lineage per parsed clone class; a
non-empty state assigns each class in order. -/
def RunGenealogyAnalysis (state : List Lineage) (commitNr : Nat) (hash_ : String)
    (author_pr : String) (pcloneclasses : List CloneClass) : List Lineage :=
  if state.isEmpty then
    pcloneclasses.foldl
      (fun st pcc => st ++ [birthLineage pcc hash_ commitNr author_pr]) state
  else
    pcloneclasses.foldl
      (fun st pcc => assignCloneClass st pcc hash_ commitNr author_pr) state

/-- One revision descriptor of the driver loop in get_clone_genealogy
(core.py lines 363-387): commitNr is the running hash_index, the hash is the
PR merge commit and author_pr the pr_type of the commit context. -/
structure Revision where
  commitNr : Nat
  hash : String
  author_pr : String
  classes : List CloneClass
deriving Repr, DecidableEq

/-- The genealogy part of the driver loop of get_clone_genealogy: fold
RunGenealogyAnalysis over the ordered revisions, starting from the empty
Genealogy State. -/
def runGenealogy (revs : List Revision) : List Lineage :=
  revs.foldl
    (fun st r => RunGenealogyAnalysis st r.commitNr r.hash r.author_pr r.classes)
    []

/-- A serialized XML node, for the structured no-clones result. -/
inductive Xml where
  | elem (tag : String) (children : List Xml)
  | txt (s : String)
deriving Repr

/-- Python str.strip with no argument: remove leading and trailing whitespace
characters. -/
def pyStrip (s : String) : String :=
  ⟨((s.data.dropWhile Char.isWhitespace).reverse.dropWhile Char.isWhitespace).reverse⟩

/-- build_no_clones_message (core.py lines 277-292): the element tree built
before pretty-printing. The Python expression
(detector or "unspecified").strip() or "unspecified" maps a missing, empty or
all-whitespace detector to "unspecified" and strips the rest. -/
def build_no_clones_message (detector : Option String) : Xml :=
  let base := match detector with
    | none => "unspecified"
    | some s => if s = "" then "unspecified" else s
  let detector_name := if pyStrip base = "" then "unspecified" else pyStrip base
  .elem "result"
    [.elem "status" [.txt "no_clones_found"],
     .elem "detector" [.txt detector_name]]

/-- Outcome of the final dispatch of get_clone_genealogy. -/
inductive GenealogyOutcome where
  | noClones (doc : Xml)
  | lineagesFile (lineages : List Lineage)
deriving Repr

/-- Final dispatch of get_clone_genealogy (core.py lines 406-416): with zero
lineages the driver returns build_no_clones_message("nicad") and writes no
genealogy lineages file; otherwise it writes the lineages file. -/
def finalizeGenealogy (state : List Lineage) : GenealogyOutcome :=
  if state.length = 0 then .noClones (build_no_clones_message (some "nicad"))
  else .lineagesFile state

/-- count_cloned_lines_of_code (clone_density.py lines 22-31) over the parsed
detector XML: for every class element and every source element under it, add
endline minus startline to the running total. -/
def count_cloned_lines_of_code (classes : List (List (Int × Int))) : Int :=
  classes.foldl (fun total cls => cls.foldl (fun t sl => t + (sl.2 - sl.1)) total) 0

/-- The lineage-continuity predicate as spec section 4.2 words it, to compare
with CloneClass.matches: every fragment of C has a similarity match in the
latest fragment set of L, or every fragment of the latest set of L has a
similarity match in C. -/
def specSubsetOrSuperset (lset cset : CloneClass) : Prop :=
  (∀ g ∈ cset.fragments, ∃ f ∈ lset.fragments, f.matches g = true) ∨
  (∀ f ∈ lset.fragments, ∃ g ∈ cset.fragments, f.matches g = true)

instance (lset cset : CloneClass) : Decidable (specSubsetOrSuperset lset cset) := by
  unfold specSubsetOrSuperset; infer_instance

/-- The match count as the spec words it in section 4.3, to compare with
matches_count: each fragment of v1 is usable at most once, so a fragment of a
is consumed as soon as a fragment of b is matched against it. -/
def matchesCountOneUse : List CloneFragment → List CloneFragment → Nat
  | _, [] => 0
  | a, f2 :: rest =>
    if a.any fun f1 => f1.hash == f2.hash then
      1 + matchesCountOneUse (a.eraseP fun f1 => f1.hash == f2.hash) rest
    else
      matchesCountOneUse a rest

/-! Concrete sample data used by counterexamples and witnesses. -/

/-- Sample fragment with fingerprint 0 (all files distinct so that the exact
textual-reference path of CloneFragment.matches never fires). -/
def cxF1 : CloneFragment := { file := "a.java", ls := 1, le := 5, hash := 0 }

/-- Sample fragment whose fingerprint is far (16 bits) from every other sample
fingerprint. -/
def cxF2 : CloneFragment := { file := "b.java", ls := 1, le := 5, hash := 4294901760 }

/-- Sample fragment at Hamming distance 1 from cxF1. -/
def cxG1 : CloneFragment := { file := "c.java", ls := 1, le := 5, hash := 1 }

/-- Sample fragment at Hamming distance 1 from cxF1. -/
def cxG2 : CloneFragment := { file := "d.java", ls := 1, le := 5, hash := 2 }

/-- Sample fragment at Hamming distance 8 from cxF1, matching nothing. -/
def cxG3 : CloneFragment := { file := "e.java", ls := 1, le := 5, hash := 255 }

/-- Latest fragment set of the sample lineage: cxF1 matches cxG1 and cxG2,
cxF2 matches nothing. -/
def sampleL : CloneClass := { fragments := [cxF1, cxF2] }

/-- Candidate clone class: cxG1 and cxG2 both match only cxF1, cxG3 matches
nothing. -/
def sampleC : CloneClass := { fragments := [cxG1, cxG2, cxG3] }

/-- A lineage whose single (hence latest) version carries sampleL. -/
def sampleLineage : Lineage :=
  { versions := [{ cloneclass := sampleL, hash := "h0", nr := 1, author_pr := "human" }] }

/-- Sample fragments sharing fingerprint 5, for the match-count claims. -/
def fr1 : CloneFragment := { file := "f1.java", ls := 1, le := 5, hash := 5 }

/-- Second fragment with fingerprint 5. -/
def fr2 : CloneFragment := { file := "f2.java", ls := 10, le := 20, hash := 5 }

/-- Third fragment with fingerprint 5. -/
def fr3 : CloneFragment := { file := "f3.java", ls := 30, le := 40, hash := 5 }

/-- A two-fragment Clone Version at revision 1. -/
def cvTwo : CloneVersion :=
  { cloneclass := { fragments := [fr1, fr2] }, hash := "h1", nr := 1, author_pr := "human" }

/-- A one-fragment Clone Version at revision 2. -/
def cvOne : CloneVersion :=
  { cloneclass := { fragments := [fr3] }, hash := "h2", nr := 2, author_pr := "agent" }

/-! Helper lemmas. -/

/-- Each fragment of b contributes at most one to matches_count. -/
theorem matches_count_le (a b : List CloneFragment) : matches_count a b ≤ b.length := by
  induction b with
  | nil => simp [matches_count]
  | cons f2 rest ih =>
    simp only [matches_count, List.length_cons]
    split <;> omega

/-- claim1 counterexample: the matching decision of the code holds for the
sample lineage and class, yet neither inclusion of the claimed
subset-or-superset characterisation holds: cxG3 has no similarity match in the
latest set and cxF2 has none in the candidate class; the count of matched
candidate fragments merely happens to equal the size of the latest set. -/
theorem claim1_counterexample :
    sampleLineage.matches sampleC = true ∧ ¬ specSubsetOrSuperset sampleL sampleC := by
  decide

/-- claim1 amended: a Lineage matches a Clone Class C exactly when either every
fragment of C has a similarity match in the latest fragment set, or the number
of fragments of C having a similarity match in the latest set equals the size
of the latest set (a count coincidence, not an inclusion of the latest set). -/
theorem claim1_amended (L : Lineage) (v : CloneVersion)
    (hv : L.versions.getLast? = some v) (C : CloneClass) :
    L.matches C = true ↔
      ((∀ g ∈ C.fragments, ∃ f ∈ v.cloneclass.fragments, f.matches g = true) ∨
        C.fragments.countP (fun g => v.cloneclass.contains g) =
          v.cloneclass.fragments.length) := by
  have hcontains : ∀ g, v.cloneclass.contains g = true ↔
      ∃ f ∈ v.cloneclass.fragments, f.matches g = true := by
    intro g
    simp [CloneClass.contains, List.any_eq_true]
  have hall : (C.fragments.countP fun g => v.cloneclass.contains g) = C.fragments.length ↔
      ∀ g ∈ C.fragments, ∃ f ∈ v.cloneclass.fragments, f.matches g = true := by
    rw [List.countP_eq_length]
    constructor
    · intro h g hg
      exact (hcontains g).1 (h g hg)
    · intro h g hg
      exact (hcontains g).2 (h g hg)
  simp only [Lineage.matches, hv, CloneClass.matches, Bool.or_eq_true, beq_iff_eq]
  exact or_congr hall Iff.rfl

/-- claim1 amended, witness: the sample lineage matches the sample class via
the count coincidence of the amended statement. -/
theorem claim1_amended_witness : sampleLineage.matches sampleC = true := by
  have h := claim1_amended sampleLineage
      { cloneclass := sampleL, hash := "h0", nr := 1, author_pr := "human" } rfl sampleC
  exact h.mpr (Or.inr (by decide))

/-- claim2: the evolution classification of GetPattern is Same on equal
fragment counts, Subtract with n_evo the deficit when v1 has more fragments,
and Add with n_evo the excess when v2 has more fragments. -/
theorem claim2_evolution (v1 v2 : CloneVersion) :
    (v1.cloneclass.fragments.length = v2.cloneclass.fragments.length →
      (GetPattern v1 v2).evolution = "Same") ∧
    (v1.cloneclass.fragments.length > v2.cloneclass.fragments.length →
      (GetPattern v1 v2).evolution = "Subtract" ∧
      (GetPattern v1 v2).n_evo =
        (v1.cloneclass.fragments.length : Int) - (v2.cloneclass.fragments.length : Int)) ∧
    (v1.cloneclass.fragments.length < v2.cloneclass.fragments.length →
      (GetPattern v1 v2).evolution = "Add" ∧
      (GetPattern v1 v2).n_evo =
        (v2.cloneclass.fragments.length : Int) - (v1.cloneclass.fragments.length : Int)) := by
  refine ⟨fun h => ?_, fun h => ?_, fun h => ?_⟩
  · simp [GetPattern, h]
  · have hne : v1.cloneclass.fragments.length ≠ v2.cloneclass.fragments.length :=
      Nat.ne_of_gt h
    simp [GetPattern, hne, h]
  · have hne : v1.cloneclass.fragments.length ≠ v2.cloneclass.fragments.length :=
      Nat.ne_of_lt h
    have hng : ¬ v1.cloneclass.fragments.length > v2.cloneclass.fragments.length :=
      Nat.not_lt.mpr (Nat.le_of_lt h)
    simp [GetPattern, hne, hng]

/-- claim2 witness: a two-fragment version shrinking to one fragment is
classified Subtract with n_evo the deficit. -/
theorem claim2_evolution_witness :
    (GetPattern cvTwo cvOne).evolution = "Subtract" ∧
    (GetPattern cvTwo cvOne).n_evo =
      (cvTwo.cloneclass.fragments.length : Int) - (cvOne.cloneclass.fragments.length : Int) :=
  (claim2_evolution cvTwo cvOne).2.1 (by decide)

/-- claim3 counterexample: two fragments of v2 with fingerprint 5 both count as
matched against the single fingerprint-5 fragment of v1, so the code counts 2
while the claimed one-use count is 1. -/
theorem claim3_counterexample :
    matches_count [fr1] [fr2, fr3] = 2 ∧
    matchesCountOneUse [fr1] [fr2, fr3] = 1 ∧
    matches_count [fr1] [fr2, fr3] ≠ matchesCountOneUse [fr1] [fr2, fr3] := by
  decide

/-- claim3 amended: the matches value equals the number of fragments of v2
whose fingerprint exactly matches the fingerprint of some fragment of v1, with
no one-use restriction on the fragments of v1. -/
theorem claim3_amended (a b : List CloneFragment) :
    matches_count a b = b.countP fun f2 => a.any fun f1 => f1.hash == f2.hash := by
  induction b with
  | nil => rfl
  | cons f2 rest ih =>
    by_cases h : (a.any fun f1 => f1.hash == f2.hash) = true
    · simp only [matches_count, List.countP_cons, ih, h, if_true]
      omega
    · simp [matches_count, List.countP_cons, ih, h]

/-- Evolution branch of GetPattern on equal fragment counts. -/
theorem getPattern_evo_eq (v1 v2 : CloneVersion)
    (h : v1.cloneclass.fragments.length = v2.cloneclass.fragments.length) :
    (GetPattern v1 v2).evolution = "Same" ∧ (GetPattern v1 v2).n_evo = 0 := by
  constructor <;> simp [GetPattern, h]

/-- Evolution branch of GetPattern when v1 has more fragments. -/
theorem getPattern_evo_gt (v1 v2 : CloneVersion)
    (h : v1.cloneclass.fragments.length > v2.cloneclass.fragments.length) :
    (GetPattern v1 v2).evolution = "Subtract" ∧
    (GetPattern v1 v2).n_evo =
      (v1.cloneclass.fragments.length : Int) - (v2.cloneclass.fragments.length : Int) := by
  have hne : v1.cloneclass.fragments.length ≠ v2.cloneclass.fragments.length :=
    Nat.ne_of_gt h
  constructor <;> simp [GetPattern, hne, h]

/-- Evolution branch of GetPattern when v2 has more fragments. -/
theorem getPattern_evo_lt (v1 v2 : CloneVersion)
    (h : v1.cloneclass.fragments.length < v2.cloneclass.fragments.length) :
    (GetPattern v1 v2).evolution = "Add" ∧
    (GetPattern v1 v2).n_evo =
      (v2.cloneclass.fragments.length : Int) - (v1.cloneclass.fragments.length : Int) := by
  have hne : v1.cloneclass.fragments.length ≠ v2.cloneclass.fragments.length :=
    Nat.ne_of_lt h
  have hng : ¬ v1.cloneclass.fragments.length > v2.cloneclass.fragments.length :=
    Nat.not_lt.mpr (Nat.le_of_lt h)
  constructor <;> simp [GetPattern, hne, hng]

/-- Change branch of GetPattern when evolution is Same or Subtract: saturation
denominator is the fragment count of v2. -/
theorem getPattern_change_sub (v1 v2 : CloneVersion)
    (hge : v2.cloneclass.fragments.length ≤ v1.cloneclass.fragments.length) :
    (GetPattern v1 v2).change =
      (if matches_count v1.cloneclass.fragments v2.cloneclass.fragments =
          v2.cloneclass.fragments.length then "Same"
       else if matches_count v1.cloneclass.fragments v2.cloneclass.fragments = 0 then
          "Consistent"
       else "Inconsistent") ∧
    (GetPattern v1 v2).n_change =
      (if matches_count v1.cloneclass.fragments v2.cloneclass.fragments =
          v2.cloneclass.fragments.length then 0
       else if matches_count v1.cloneclass.fragments v2.cloneclass.fragments = 0 then
          (v2.cloneclass.fragments.length : Int)
       else (v2.cloneclass.fragments.length : Int) -
          (matches_count v1.cloneclass.fragments v2.cloneclass.fragments : Int)) := by
  rcases Nat.eq_or_lt_of_le hge with heq | hlt
  · have h : v1.cloneclass.fragments.length = v2.cloneclass.fragments.length := heq.symm
    constructor <;> simp [GetPattern, h]
  · have hne : v1.cloneclass.fragments.length ≠ v2.cloneclass.fragments.length :=
      Nat.ne_of_gt hlt
    constructor <;> simp [GetPattern, hne, hlt]

/-- Change branch of GetPattern when evolution is Add: saturation denominator
is the fragment count of v1, magnitudes still use the fragment count of v2. -/
theorem getPattern_change_add (v1 v2 : CloneVersion)
    (hlt : v1.cloneclass.fragments.length < v2.cloneclass.fragments.length) :
    (GetPattern v1 v2).change =
      (if matches_count v1.cloneclass.fragments v2.cloneclass.fragments =
          v1.cloneclass.fragments.length then "Same"
       else if matches_count v1.cloneclass.fragments v2.cloneclass.fragments = 0 then
          "Consistent"
       else "Inconsistent") ∧
    (GetPattern v1 v2).n_change =
      (if matches_count v1.cloneclass.fragments v2.cloneclass.fragments =
          v1.cloneclass.fragments.length then 0
       else if matches_count v1.cloneclass.fragments v2.cloneclass.fragments = 0 then
          (v2.cloneclass.fragments.length : Int)
       else (v2.cloneclass.fragments.length : Int) -
          (matches_count v1.cloneclass.fragments v2.cloneclass.fragments : Int)) := by
  have hne : v1.cloneclass.fragments.length ≠ v2.cloneclass.fragments.length :=
    Nat.ne_of_lt hlt
  have hng : ¬ v1.cloneclass.fragments.length > v2.cloneclass.fragments.length :=
    Nat.not_lt.mpr (Nat.le_of_lt hlt)
  constructor <;> simp [GetPattern, hne, hng]

/-- An evolution value of Same or Subtract forces a non-increasing fragment
count. -/
theorem evo_sub_le (v1 v2 : CloneVersion)
    (hev : (GetPattern v1 v2).evolution = "Same" ∨
           (GetPattern v1 v2).evolution = "Subtract") :
    v2.cloneclass.fragments.length ≤ v1.cloneclass.fragments.length := by
  rcases Nat.lt_trichotomy v1.cloneclass.fragments.length
      v2.cloneclass.fragments.length with hlt | heq | hgt
  · exfalso
    have he := (getPattern_evo_lt v1 v2 hlt).1
    rcases hev with h | h <;> rw [he] at h <;> exact absurd h (by decide)
  · omega
  · omega

/-- An evolution value of Add forces a strictly increasing fragment count. -/
theorem evo_add_lt (v1 v2 : CloneVersion)
    (hev : (GetPattern v1 v2).evolution = "Add") :
    v1.cloneclass.fragments.length < v2.cloneclass.fragments.length := by
  rcases Nat.lt_trichotomy v1.cloneclass.fragments.length
      v2.cloneclass.fragments.length with hlt | heq | hgt
  · exact hlt
  · exact absurd ((getPattern_evo_eq v1 v2 heq).1.symm.trans hev) (by decide)
  · exact absurd ((getPattern_evo_gt v1 v2 hgt).1.symm.trans hev) (by decide)

/-- claim4: for non-empty fragment sets, the change classification is Same
exactly at saturation (the fragment count of v2 under Same or Subtract
evolution, the fragment count of v1 under Add), Consistent exactly at zero
matches with magnitude the fragment count of v2, and otherwise Inconsistent
with magnitude the fragment count of v2 minus the match count. -/
theorem claim4_change (v1 v2 : CloneVersion)
    (h1 : v1.cloneclass.fragments ≠ []) (h2 : v2.cloneclass.fragments ≠ []) :
    (((GetPattern v1 v2).evolution = "Same" ∨ (GetPattern v1 v2).evolution = "Subtract") →
      (((GetPattern v1 v2).change = "Same" ↔
          matches_count v1.cloneclass.fragments v2.cloneclass.fragments =
            v2.cloneclass.fragments.length) ∧
       ((GetPattern v1 v2).change = "Consistent" ↔
          matches_count v1.cloneclass.fragments v2.cloneclass.fragments = 0) ∧
       ((GetPattern v1 v2).change = "Consistent" →
          (GetPattern v1 v2).n_change = (v2.cloneclass.fragments.length : Int)) ∧
       (matches_count v1.cloneclass.fragments v2.cloneclass.fragments ≠
          v2.cloneclass.fragments.length →
        matches_count v1.cloneclass.fragments v2.cloneclass.fragments ≠ 0 →
          (GetPattern v1 v2).change = "Inconsistent" ∧
          (GetPattern v1 v2).n_change = (v2.cloneclass.fragments.length : Int) -
            (matches_count v1.cloneclass.fragments v2.cloneclass.fragments : Int)))) ∧
    ((GetPattern v1 v2).evolution = "Add" →
      (((GetPattern v1 v2).change = "Same" ↔
          matches_count v1.cloneclass.fragments v2.cloneclass.fragments =
            v1.cloneclass.fragments.length) ∧
       ((GetPattern v1 v2).change = "Consistent" ↔
          matches_count v1.cloneclass.fragments v2.cloneclass.fragments = 0) ∧
       ((GetPattern v1 v2).change = "Consistent" →
          (GetPattern v1 v2).n_change = (v2.cloneclass.fragments.length : Int)) ∧
       (matches_count v1.cloneclass.fragments v2.cloneclass.fragments ≠
          v1.cloneclass.fragments.length →
        matches_count v1.cloneclass.fragments v2.cloneclass.fragments ≠ 0 →
          (GetPattern v1 v2).change = "Inconsistent" ∧
          (GetPattern v1 v2).n_change = (v2.cloneclass.fragments.length : Int) -
            (matches_count v1.cloneclass.fragments v2.cloneclass.fragments : Int)))) := by
  have hn1pos : 0 < v1.cloneclass.fragments.length := List.length_pos.mpr h1
  have hn2pos : 0 < v2.cloneclass.fragments.length := List.length_pos.mpr h2
  constructor
  · intro hev
    have hge := evo_sub_le v1 v2 hev
    obtain ⟨hch, hnc⟩ := getPattern_change_sub v1 v2 hge
    rw [hch, hnc]
    by_cases hm2 : matches_count v1.cloneclass.fragments v2.cloneclass.fragments =
        v2.cloneclass.fragments.length
    · rw [if_pos hm2, if_pos hm2]
      refine ⟨by simp [hm2], ?_, ?_, ?_⟩
      · constructor
        · intro hc; exact absurd hc (by decide)
        · intro h0; exfalso; omega
      · intro hc; exact absurd hc (by decide)
      · intro hne _; exact absurd hm2 hne
    · rw [if_neg hm2, if_neg hm2]
      by_cases hm0 : matches_count v1.cloneclass.fragments v2.cloneclass.fragments = 0
      · rw [if_pos hm0, if_pos hm0]
        refine ⟨?_, ?_, fun _ => rfl, ?_⟩
        · constructor
          · intro hc; exact absurd hc (by decide)
          · intro h; exact absurd h hm2
        · simp [hm0]
        · intro _ hne0; exact absurd hm0 hne0
      · rw [if_neg hm0, if_neg hm0]
        refine ⟨?_, ?_, ?_, fun _ _ => ⟨rfl, rfl⟩⟩
        · constructor
          · intro hc; exact absurd hc (by decide)
          · intro h; exact absurd h hm2
        · constructor
          · intro hc; exact absurd hc (by decide)
          · intro h; exact absurd h hm0
        · intro hc; exact absurd hc (by decide)
  · intro hev
    have hlt := evo_add_lt v1 v2 hev
    obtain ⟨hch, hnc⟩ := getPattern_change_add v1 v2 hlt
    rw [hch, hnc]
    by_cases hm1 : matches_count v1.cloneclass.fragments v2.cloneclass.fragments =
        v1.cloneclass.fragments.length
    · rw [if_pos hm1, if_pos hm1]
      refine ⟨by simp [hm1], ?_, ?_, ?_⟩
      · constructor
        · intro hc; exact absurd hc (by decide)
        · intro h0; exfalso; omega
      · intro hc; exact absurd hc (by decide)
      · intro hne _; exact absurd hm1 hne
    · rw [if_neg hm1, if_neg hm1]
      by_cases hm0 : matches_count v1.cloneclass.fragments v2.cloneclass.fragments = 0
      · rw [if_pos hm0, if_pos hm0]
        refine ⟨?_, ?_, fun _ => rfl, ?_⟩
        · constructor
          · intro hc; exact absurd hc (by decide)
          · intro h; exact absurd h hm1
        · simp [hm0]
        · intro _ hne0; exact absurd hm0 hne0
      · rw [if_neg hm0, if_neg hm0]
        refine ⟨?_, ?_, ?_, fun _ _ => ⟨rfl, rfl⟩⟩
        · constructor
          · intro hc; exact absurd hc (by decide)
          · intro h; exact absurd h hm1
        · constructor
          · intro hc; exact absurd hc (by decide)
          · intro h; exact absurd h hm0
        · intro hc; exact absurd hc (by decide)

/-- claim4 witness: shrinking from two fragments to one fragment whose
fingerprint still matches saturates the match count, so change is Same. -/
theorem claim4_change_witness : (GetPattern cvTwo cvOne).change = "Same" := by
  have h := claim4_change cvTwo cvOne (by decide) (by decide)
  exact (h.1 (Or.inr (by decide))).1.mpr (by decide)

/-- claim9: on non-empty fragment sets the classification is total: evolution
is one of Same, Add, Subtract and never the None sentinel; change is one of
Same, Consistent, Inconsistent and never the None sentinel; and both numeric
deltas are non-negative. -/
theorem claim9_classification_total (v1 v2 : CloneVersion)
    (_h1 : v1.cloneclass.fragments ≠ []) (_h2 : v2.cloneclass.fragments ≠ []) :
    ((GetPattern v1 v2).evolution = "Same" ∨ (GetPattern v1 v2).evolution = "Add" ∨
      (GetPattern v1 v2).evolution = "Subtract") ∧
    (GetPattern v1 v2).evolution ≠ "None" ∧
    ((GetPattern v1 v2).change = "Same" ∨ (GetPattern v1 v2).change = "Consistent" ∨
      (GetPattern v1 v2).change = "Inconsistent") ∧
    (GetPattern v1 v2).change ≠ "None" ∧
    0 ≤ (GetPattern v1 v2).n_evo ∧ 0 ≤ (GetPattern v1 v2).n_change := by
  have hmle := matches_count_le v1.cloneclass.fragments v2.cloneclass.fragments
  rcases Nat.lt_trichotomy v1.cloneclass.fragments.length
      v2.cloneclass.fragments.length with hlt | heq | hgt
  · obtain ⟨he, hn⟩ := getPattern_evo_lt v1 v2 hlt
    obtain ⟨hch, hnc⟩ := getPattern_change_add v1 v2 hlt
    refine ⟨Or.inr (Or.inl he), by rw [he]; decide, ?_, ?_, ?_, ?_⟩
    · rw [hch]; split_ifs <;> simp
    · rw [hch]; split_ifs <;> decide
    · rw [hn]; omega
    · rw [hnc]; split_ifs <;> omega
  · obtain ⟨he, hn⟩ := getPattern_evo_eq v1 v2 heq
    obtain ⟨hch, hnc⟩ := getPattern_change_sub v1 v2 (Nat.le_of_eq heq.symm)
    refine ⟨Or.inl he, by rw [he]; decide, ?_, ?_, ?_, ?_⟩
    · rw [hch]; split_ifs <;> simp
    · rw [hch]; split_ifs <;> decide
    · exact le_of_eq hn.symm
    · rw [hnc]; split_ifs <;> omega
  · obtain ⟨he, hn⟩ := getPattern_evo_gt v1 v2 hgt
    obtain ⟨hch, hnc⟩ := getPattern_change_sub v1 v2 (Nat.le_of_lt hgt)
    refine ⟨Or.inr (Or.inr he), by rw [he]; decide, ?_, ?_, ?_, ?_⟩
    · rw [hch]; split_ifs <;> simp
    · rw [hch]; split_ifs <;> decide
    · rw [hn]; omega
    · rw [hnc]; split_ifs <;> omega

/-- claim9 witness: the sample two-fragment to one-fragment pair. -/
theorem claim9_classification_total_witness :
    ((GetPattern cvTwo cvOne).evolution = "Same" ∨ (GetPattern cvTwo cvOne).evolution = "Add" ∨
      (GetPattern cvTwo cvOne).evolution = "Subtract") ∧
    (GetPattern cvTwo cvOne).evolution ≠ "None" ∧
    ((GetPattern cvTwo cvOne).change = "Same" ∨ (GetPattern cvTwo cvOne).change = "Consistent" ∨
      (GetPattern cvTwo cvOne).change = "Inconsistent") ∧
    (GetPattern cvTwo cvOne).change ≠ "None" ∧
    0 ≤ (GetPattern cvTwo cvOne).n_evo ∧ 0 ≤ (GetPattern cvTwo cvOne).n_change :=
  claim9_classification_total cvTwo cvOne (by decide) (by decide)

/-- claim5: the update path of RunGenealogyAnalysis (core.py line 265) passes
ten positional arguments (pcc, hash_, commitNr, number_pr, author_pr,
evolution, change, n_evo, n_change, clones_loc) to the nine-parameter
CloneVersion.__init__, so the call fails instead of appending the classified
Clone Version to the first eligible Lineage. -/
theorem claim5_append_call_arity :
    CloneVersionInit [.vclass sampleL, .vstr "1e4b2f", .vint 2, .vint 7, .vstr "agent",
      .vstr "Same", .vstr "Same", .vint 0, .vint 0, .vint 0] = none := by
  decide

/-- claim6: the birth path of RunGenealogyAnalysis (core.py lines 251 and 269)
calls CloneVersion(pcc, hash_, commitNr, number_pr, author_pr), so positionally
the author_pr parameter receives the PR number and the evo parameter receives
the author string; the birth version therefore carries the author string, not
the None sentinel, in its evolution field. -/
theorem claim6_birth_fields :
    ((CloneVersionInit [.vclass sampleL, .vstr "1e4b2f", .vint 1, .vint 7, .vstr "agent"]).bind
        fun attrs => attrs.lookup "evolution_pattern") = some (.vstr "agent") ∧
    ((CloneVersionInit [.vclass sampleL, .vstr "1e4b2f", .vint 1, .vint 7, .vstr "agent"]).bind
        fun attrs => attrs.lookup "change_pattern") = some (.vstr "None") ∧
    ((CloneVersionInit [.vclass sampleL, .vstr "1e4b2f", .vint 1, .vint 7, .vstr "agent"]).bind
        fun attrs => attrs.lookup "author_pr") = some (.vint 7) ∧
    PyVal.vstr "agent" ≠ PyVal.vstr "None" := by
  decide

/-- claim8: with zero Lineages at finalization the driver returns the
structured no-clones XML document carrying the detector name, instead of a
genealogy lineages file. -/
theorem claim8_no_clones (state : List Lineage) (h : state.length = 0) :
    finalizeGenealogy state =
      .noClones (.elem "result"
        [.elem "status" [.txt "no_clones_found"],
         .elem "detector" [.txt "nicad"]]) := by
  rw [finalizeGenealogy, if_pos h]
  rfl

/-- claim8 witness: the empty Genealogy State. -/
theorem claim8_no_clones_witness :
    finalizeGenealogy [] =
      .noClones (.elem "result"
        [.elem "status" [.txt "no_clones_found"],
         .elem "detector" [.txt "nicad"]]) :=
  claim8_no_clones [] rfl

/-- Folding line differences of one class element equals the accumulator plus
the sum of the differences. -/
theorem foldl_line_diff (cls : List (Int × Int)) (t : Int) :
    cls.foldl (fun t sl => t + (sl.2 - sl.1)) t =
      t + (cls.map fun sl => sl.2 - sl.1).sum := by
  induction cls generalizing t with
  | nil => simp
  | cons sl rest ih => simp [ih, add_assoc]

/-- claim10: every line count in the system is end minus start, which excludes
one endpoint of the inclusive range: CloneFragment.countLOC, the clones_LOC
delta of GetPattern and the cloned-lines numerator of clone density all use it,
and a single-line fragment contributes zero lines. -/
theorem claim10_loc_count :
    (∀ f : CloneFragment, f.countLOC = f.le - f.ls) ∧
    (∀ (file : String) (fingerprint : Nat) (x : Int),
      (CloneFragment.mk file x x fingerprint).countLOC = 0) ∧
    (∀ v1 v2 : CloneVersion, (GetPattern v1 v2).clones_loc =
      (v2.cloneclass.fragments.map CloneFragment.countLOC).sum -
      (v1.cloneclass.fragments.map CloneFragment.countLOC).sum) ∧
    (∀ classes : List (List (Int × Int)), count_cloned_lines_of_code classes =
      (classes.map fun cls => (cls.map fun sl => sl.2 - sl.1).sum).sum) := by
  refine ⟨fun f => rfl, ?_, fun v1 v2 => rfl, ?_⟩
  · intro file fingerprint x
    simp [CloneFragment.countLOC]
  · intro classes
    have aux : ∀ (cs : List (List (Int × Int))) (t : Int),
        cs.foldl (fun total cls => cls.foldl (fun t sl => t + (sl.2 - sl.1)) total) t =
          t + (cs.map fun cls => (cls.map fun sl => sl.2 - sl.1).sum).sum := by
      intro cs
      induction cs with
      | nil => intro t; simp
      | cons cls rest ih =>
        intro t
        simp only [List.foldl_cons, List.map_cons, List.sum_cons]
        rw [foldl_line_diff, ih, add_assoc]
    simpa using aux classes 0

/-- Invariant of one lineage during genealogy construction: non-empty version
list, strictly increasing revision indices, all bounded by the current commit
number. -/
def GoodLineage (l : Lineage) (c : Nat) : Prop :=
  l.versions ≠ [] ∧
  List.Chain' (· < ·) (l.versions.map fun v => v.nr) ∧
  ∀ v ∈ l.versions, v.nr ≤ c

/-- Invariant of the whole Genealogy State. -/
def GoodState (state : List Lineage) (c : Nat) : Prop := ∀ l ∈ state, GoodLineage l c

/-- The bound of the invariant is monotone. -/
theorem goodState_mono (state : List Lineage) {c c' : Nat} (h : c ≤ c')
    (hg : GoodState state c) : GoodState state c' :=
  fun l hl => ⟨(hg l hl).1, (hg l hl).2.1, fun v hv => le_trans ((hg l hl).2.2 v hv) h⟩

/-- The last entry of the mapped revision indices is the lastNr field. -/
theorem lastNr_eq (l : Lineage) (h : l.versions ≠ []) :
    (l.versions.map fun v => v.nr).getLast? = some l.lastNr := by
  rw [List.getLast?_map, Lineage.lastNr, Lineage.lastVersion,
    List.getLastD_eq_getLast?, List.getLast?_eq_getLast _ h]
  rfl

/-- The latest version belongs to the version list. -/
theorem lastVersion_mem (l : Lineage) (h : l.versions ≠ []) :
    l.lastVersion ∈ l.versions := by
  rw [Lineage.lastVersion, List.getLastD_eq_getLast?, List.getLast?_eq_getLast _ h]
  exact List.getLast_mem h

/-- A birth lineage satisfies the invariant at its commit number. -/
theorem birth_good (pcc : CloneClass) (hash_ : String) (c : Nat) (author : String) :
    GoodLineage (birthLineage pcc hash_ c author) c := by
  refine ⟨by simp [birthLineage], by simp [birthLineage], ?_⟩
  intro v hv
  simp only [birthLineage, List.mem_singleton] at hv
  simp [hv]

/-- Appending a classified version with the current commit number preserves the
invariant, provided the lineage is not already at this commit number. -/
theorem append_good (l : Lineage) (pcc : CloneClass) (hash_ : String) (c : Nat)
    (author : String) (hg : GoodLineage l c) (hne : l.lastNr ≠ c) :
    GoodLineage (l.appendVersion pcc hash_ c author) c := by
  obtain ⟨hn, hch, hb⟩ := hg
  have hlast : l.lastNr < c :=
    lt_of_le_of_ne (hb l.lastVersion (lastVersion_mem l hn)) hne
  have hv : (l.appendVersion pcc hash_ c author).versions.map (fun v => v.nr) =
      (l.versions.map fun v => v.nr) ++ [c] := by
    simp [Lineage.appendVersion]
  refine ⟨by simp [Lineage.appendVersion], ?_, ?_⟩
  · rw [hv]
    refine List.Chain'.append hch (List.chain'_singleton c) ?_
    intro x hx y hy
    rw [lastNr_eq l hn] at hx
    simp only [List.head?_cons, Option.mem_def, Option.some.injEq] at hx hy
    rw [← hx, ← hy]
    exact hlast
  · intro v hvmem
    simp only [Lineage.appendVersion, List.mem_append, List.mem_singleton] at hvmem
    rcases hvmem with hvm | hvm
    · exact hb v hvm
    · simp [hvm]

/-- The lineage scan preserves the invariant. -/
theorem scan_good (pcc : CloneClass) (hash_ : String) (c : Nat) (author : String) :
    ∀ (state : List Lineage), GoodState state c →
      ∀ s, scanLineages pcc hash_ c author state = some s → GoodState s c := by
  intro state
  induction state with
  | nil => intro _ s hs; simp [scanLineages] at hs
  | cons l rest ih =>
    intro hg s hs
    have hgl : GoodLineage l c := hg l (by simp)
    have hgrest : GoodState rest c := fun x hx => hg x (List.mem_cons_of_mem l hx)
    simp only [scanLineages] at hs
    by_cases hm : l.matches pcc = true
    · rw [if_pos hm] at hs
      by_cases hnr : l.lastNr = c
      · rw [if_pos hnr] at hs
        cases hsc : scanLineages pcc hash_ c author rest with
        | none => rw [hsc] at hs; simp at hs
        | some s2 =>
          rw [hsc] at hs
          simp only [Option.map_some', Option.some.injEq] at hs
          subst hs
          intro x hx
          rcases List.mem_cons.mp hx with hx | hx
          · exact hx ▸ hgl
          · exact ih hgrest s2 hsc x hx
      · rw [if_neg hnr] at hs
        rw [Option.some.injEq] at hs
        subst hs
        intro x hx
        rcases List.mem_cons.mp hx with hx | hx
        · exact hx ▸ append_good l pcc hash_ c author hgl hnr
        · exact hgrest x hx
    · rw [if_neg hm] at hs
      cases hsc : scanLineages pcc hash_ c author rest with
      | none => rw [hsc] at hs; simp at hs
      | some s2 =>
        rw [hsc] at hs
        simp only [Option.map_some', Option.some.injEq] at hs
        subst hs
        intro x hx
        rcases List.mem_cons.mp hx with hx | hx
        · exact hx ▸ hgl
        · exact ih hgrest s2 hsc x hx

/-- Assigning one clone class preserves the invariant. -/
theorem assign_good (state : List Lineage) (pcc : CloneClass) (hash_ : String)
    (c : Nat) (author : String) (hg : GoodState state c) :
    GoodState (assignCloneClass state pcc hash_ c author) c := by
  unfold assignCloneClass
  cases hsc : scanLineages pcc hash_ c author state with
  | some s => exact scan_good pcc hash_ c author state hg s hsc
  | none =>
    intro x hx
    rcases List.mem_append.mp hx with hx | hx
    · exact hg x hx
    · rw [List.mem_singleton.mp hx]
      exact birth_good pcc hash_ c author

/-- Folding the assignment over the clone classes of one revision preserves
the invariant. -/
theorem foldassign_good (hash_ : String) (c : Nat) (author : String) :
    ∀ (pccs : List CloneClass) (state : List Lineage), GoodState state c →
      GoodState (pccs.foldl (fun st pcc => assignCloneClass st pcc hash_ c author) state) c := by
  intro pccs
  induction pccs with
  | nil => intro state hg; exact hg
  | cons pcc rest ih =>
    intro state hg
    exact ih _ (assign_good state pcc hash_ c author hg)

/-- Folding the birth append over the clone classes of one revision preserves
the invariant. -/
theorem foldbirth_good (hash_ : String) (c : Nat) (author : String) :
    ∀ (pccs : List CloneClass) (state : List Lineage), GoodState state c →
      GoodState (pccs.foldl (fun st pcc => st ++ [birthLineage pcc hash_ c author]) state) c := by
  intro pccs
  induction pccs with
  | nil => intro state hg; exact hg
  | cons pcc rest ih =>
    intro state hg
    refine ih _ ?_
    intro x hx
    rcases List.mem_append.mp hx with hx | hx
    · exact hg x hx
    · rw [List.mem_singleton.mp hx]
      exact birth_good pcc hash_ c author

/-- One revision pass preserves the invariant at its commit number. -/
theorem run_pass_good (state : List Lineage) (c : Nat) (hash_ : String)
    (author : String) (pccs : List CloneClass) (hg : GoodState state c) :
    GoodState (RunGenealogyAnalysis state c hash_ author pccs) c := by
  unfold RunGenealogyAnalysis
  split
  · exact foldbirth_good hash_ c author pccs state hg
  · exact foldassign_good hash_ c author pccs state hg

/-- Folding the revision passes over an ascending commit-number list keeps the
invariant, for some final bound. -/
theorem runGenealogy_aux :
    ∀ (revs : List Revision) (state : List Lineage) (c : Nat),
      GoodState state c →
      List.Chain' (· < ·) (c :: revs.map fun r => r.commitNr) →
      ∃ c', GoodState (revs.foldl (fun st r =>
        RunGenealogyAnalysis st r.commitNr r.hash r.author_pr r.classes) state) c' := by
  intro revs
  induction revs with
  | nil => intro state c hg _; exact ⟨c, hg⟩
  | cons r rest ih =>
    intro state c hg hch
    rw [List.map_cons, List.chain'_cons] at hch
    obtain ⟨hlt, hch2⟩ := hch
    rw [List.foldl_cons]
    exact ih _ r.commitNr
      (run_pass_good state r.commitNr r.hash r.author_pr r.classes
        (goodState_mono state (le_of_lt hlt) hg)) hch2

/-- claim7: after processing revisions with strictly ascending commit numbers,
the revision indices of the versions of every lineage in the resulting
Genealogy State are strictly increasing in list order. -/
theorem claim7_nr_strictly_increasing (revs : List Revision)
    (hasc : List.Chain' (· < ·) (revs.map fun r => r.commitNr)) :
    ∀ l ∈ runGenealogy revs, List.Chain' (· < ·) (l.versions.map fun v => v.nr) := by
  cases revs with
  | nil => intro l hl; simp [runGenealogy] at hl
  | cons r rest =>
    have h0 : GoodState ([] : List Lineage) r.commitNr := by
      intro l hl; simp at hl
    have h1 := run_pass_good [] r.commitNr r.hash r.author_pr r.classes h0
    rw [List.map_cons] at hasc
    obtain ⟨c', hg⟩ := runGenealogy_aux rest _ r.commitNr h1 hasc
    intro l hl
    simp only [runGenealogy, List.foldl_cons] at hl
    exact (hg l hl).2.1

/-- First revision of the claim7 witness scenario: one clone class with one
fragment. -/
def wrev1 : Revision :=
  { commitNr := 1, hash := "h1", author_pr := "human", classes := [{ fragments := [fr1] }] }

/-- Second revision of the claim7 witness scenario: the same clone class, which
matches the lineage born at revision 1 and extends it. -/
def wrev2 : Revision :=
  { commitNr := 2, hash := "h2", author_pr := "agent", classes := [{ fragments := [fr1] }] }

/-- claim7 witness: in the concrete two-revision run the (single) resulting
lineage carries strictly increasing revision indices. -/
theorem claim7_nr_strictly_increasing_witness :
    List.Chain' (· < ·)
      ((((runGenealogy [wrev1, wrev2]).getD 0 {}).versions).map fun v => v.nr) :=
  claim7_nr_strictly_increasing [wrev1, wrev2]
    (by
      have h : ([wrev1, wrev2].map fun r => r.commitNr) = [1, 2] := rfl
      rw [h]
      exact List.chain'_cons.mpr ⟨by norm_num, List.chain'_singleton 2⟩)
    _ (by decide)
